import Mathlib

/-!
Shallow embedding of `pressure_monitor` (src/src/main.rs), a live MQTT
pressure-telemetry visualizer, together with proofs of its specified
properties.

Modelling conventions:
* `SystemTime` instants and `f64` pressure values are modelled as exact
  rationals (`ℚ`): every value the program manipulates here is obtained
  from an `i32` (whose conversion to `f64` is exact) or from subtracting
  timestamps, so no floating-point rounding is observable in the claims.
* Byte payloads are lists of `Nat` (each byte `< 256` where it matters).
* The fallible chart-frame computation (`expect` on `duration_since`,
  main.rs lines 155-165) returns `Option`: `none` models the panic.
-/

namespace PressureMonitor

/-- Capacity constant `DATA_LENGTH` (main.rs line 16). -/
def DATA_LENGTH : Nat := 1000

/-- Frame delay in milliseconds (main.rs line 197,
`thread::sleep(Duration::from_millis(15))`). -/
def FRAME_DELAY_MS : Nat := 15

/-- Two's-complement reinterpretation of a `Nat` below `2^32` as an `i32`
(the result of `i32::from_le_bytes`). -/
def toI32 (n : Nat) : Int :=
  if n < 2 ^ 31 then (n : Int) else (n : Int) - 2 ^ 32

/-- Sample decoder (main.rs lines 78-81): if the payload has exactly 4
bytes, interpret them as a little-endian signed 32-bit integer and convert
to `f64` (exact, modelled as `Int`); otherwise no sample is produced and
no error is surfaced (`Option`, not an error type). -/
def decode (bytes : List Nat) : Option Int :=
  match bytes with
  | [b0, b1, b2, b3] => some (toI32 (b0 + 256 * b1 + 256 ^ 2 * b2 + 256 ^ 3 * b3))
  | _ => none

/-- State owned by the render loop: the sample vector `data` and the epoch
reference `start_ts` (main.rs lines 119-121). A sample is a
`(timestamp, value)` pair; timestamps are in seconds. -/
structure BufState where
  data : List (ℚ × ℚ)
  start_ts : ℚ
deriving DecidableEq, Repr

/-- Initial state before the loop: empty vector, `start_ts` set to the
current time `t0` (main.rs lines 119-121). -/
def initBuf (t0 : ℚ) : BufState :=
  { data := [], start_ts := t0 }

/-- One push of a received sample into the sliding window, embedding
main.rs lines 128-139:
if the buffer is empty, `start_ts` becomes the new sample's timestamp;
if the length (before the append) exceeds `DATA_LENGTH`, the front element
is removed and `start_ts` is reset to the new front's timestamp; finally
the sample is appended. -/
def push (st : BufState) (now pressure : ℚ) : BufState :=
  let start1 := if st.data.length = 0 then now else st.start_ts
  if st.data.length > DATA_LENGTH then
    let rest := st.data.tail
    { data := rest ++ [(now, pressure)],
      start_ts := (rest.headD (now, pressure)).1 }
  else
    { data := st.data ++ [(now, pressure)], start_ts := start1 }

/-- Folding a whole sequence of received samples into the buffer, one
loop iteration per element. -/
def pushAll (st : BufState) (l : List (ℚ × ℚ)) : BufState :=
  l.foldl (fun s tv => push s tv.1 tv.2) st

/-- The end-to-end scenario driver: `pushN n` pushes `n` samples with
strictly increasing timestamps `0, 1, 2, ...` and constant value `5`
into an initially empty buffer. -/
def pushN : Nat → BufState
  | 0 => initBuf 0
  | n + 1 => push (pushN n) (n : ℚ) 5

/-- Elapsed time of one sample relative to the epoch
(`d.0.duration_since(start_ts)`, main.rs lines 159-161): `duration_since`
fails when the timestamp predates the epoch, and the code's `expect`
turns that failure into a panic (`none`). -/
def elapsedQ (start_ts ts : ℚ) : Option ℚ :=
  if ts < start_ts then none else some (ts - start_ts)

/-- Mapping every buffered sample to its `(elapsed_seconds, value)` chart
point (main.rs lines 155-165); `none` when any sample's timestamp
predates the epoch. -/
def chartPoints (start_ts : ℚ) : List (ℚ × ℚ) → Option (List (ℚ × ℚ))
  | [] => some []
  | d :: rest =>
    match elapsedQ start_ts d.1, chartPoints start_ts rest with
    | some e, some ps => some ((e, d.2) :: ps)
    | _, _ => none

/-- The chart frame (`chart_data` in main.rs lines 155-165, the spec's
`snapshot_as_chart_frame`). -/
def chartFrame (st : BufState) : Option (List (ℚ × ℚ)) :=
  chartPoints st.start_ts st.data

/-- One record of the exported CSV file: the header row or one
text-formatted data row (the numeric pair that `to_string` renders). -/
inductive CsvRow where
  | header : CsvRow
  | point : ℚ → ℚ → CsvRow
deriving DecidableEq, Repr

/-- Exporter (main.rs lines 177-186): the complete contents written to
`pressure_data.csv` — `csv::Writer::from_path` truncates the file, then
the two-column header and one row per chart point are written in order. -/
def exportFile (frame : List (ℚ × ℚ)) : List CsvRow :=
  CsvRow.header :: frame.map (fun d => CsvRow.point d.1 d.2)

/-- State visible to one render-loop iteration: the ingestion channel
contents (front = next to receive), the buffer, the chart frame last
drawn into the pixel buffer, and the contents of the export file if one
was written. -/
structure LoopState where
  queue : List ℚ
  buf : BufState
  pixels : List (ℚ × ℚ)
  file : Option (List CsvRow)
deriving DecidableEq, Repr

/-- One iteration of the render/input loop body (main.rs lines 123-198)
at time `now`, with `sPressed` the result of polling the `S` key:
`rx.try_recv()` takes at most the front sample; on `Err` (empty queue)
the iteration leaves all state unchanged and presents the old pixel
buffer; on `Ok` it pushes, recomputes the chart frame (panic = `none`),
redraws, and — only inside this branch — polls the export key. -/
def step (st : LoopState) (now : ℚ) (sPressed : Bool) : Option LoopState :=
  match st.queue with
  | [] => some st
  | pressure :: qrest =>
    let buf1 := push st.buf now pressure
    match chartFrame buf1 with
    | none => none
    | some frame =>
      let file1 := if sPressed then some (exportFile frame) else st.file
      some { queue := qrest, buf := buf1, pixels := frame, file := file1 }

/-- Epoch invariant: whenever the buffer is non-empty, `start_ts` equals
the timestamp of the front (oldest) sample. -/
def EpochInv (st : BufState) : Prop :=
  ∀ d, st.data.head? = some d → st.start_ts = d.1

instance instDecidableEpochInv (st : BufState) : Decidable (EpochInv st) :=
  match h : st.data.head? with
  | none => isTrue (by
      intro d hd
      rw [h] at hd
      exact Option.noConfusion hd)
  | some d0 =>
    if he : st.start_ts = d0.1 then
      isTrue (by
        intro d hd
        rw [h] at hd
        injection hd with hd2
        rw [← hd2]
        exact he)
    else
      isFalse (fun hall => he (hall d0 h))

/-! ### Helper lemmas -/

theorem push_eq_append (st : BufState) (now p : ℚ)
    (h : ¬ st.data.length > DATA_LENGTH) :
    push st now p =
      { data := st.data ++ [(now, p)],
        start_ts := if st.data.length = 0 then now else st.start_ts } := by
  unfold push
  rw [if_neg h]

theorem push_eq_evict (st : BufState) (now p : ℚ)
    (h : st.data.length > DATA_LENGTH) :
    push st now p =
      { data := st.data.tail ++ [(now, p)],
        start_ts := (st.data.tail.headD (now, p)).1 } := by
  unfold push
  rw [if_pos h]

theorem pushAll_cons (st : BufState) (tv : ℚ × ℚ) (l : List (ℚ × ℚ)) :
    pushAll st (tv :: l) = pushAll (push st tv.1 tv.2) l := rfl

theorem push_data_ne_nil (st : BufState) (now p : ℚ) :
    (push st now p).data ≠ [] := by
  by_cases h : st.data.length > DATA_LENGTH
  · rw [push_eq_evict st now p h]
    simp
  · rw [push_eq_append st now p h]
    simp

theorem chartPoints_eq_none_iff (s : ℚ) (l : List (ℚ × ℚ)) :
    chartPoints s l = none ↔ ∃ d ∈ l, d.1 < s := by
  induction l with
  | nil => simp [chartPoints]
  | cons d rest ih =>
    by_cases h : d.1 < s
    · simp only [chartPoints, elapsedQ, if_pos h]
      simp [h]
    · simp only [chartPoints, elapsedQ, if_neg h]
      cases hc : chartPoints s rest with
      | none =>
        rw [hc] at ih
        simp only [List.mem_cons]
        constructor
        · intro _
          obtain ⟨d', hd', hlt⟩ := ih.mp rfl
          exact ⟨d', Or.inr hd', hlt⟩
        · intro _; trivial
      | some ps =>
        rw [hc] at ih
        simp only [List.mem_cons]
        constructor
        · intro hfalse
          exact Option.noConfusion hfalse
        · rintro ⟨d', hd' | hd', hlt⟩
          · subst hd'
            exact absurd hlt h
          · exact Option.noConfusion (ih.mpr ⟨d', hd', hlt⟩)

theorem chartPoints_eq_some (s : ℚ) (l : List (ℚ × ℚ))
    (h : ∀ d ∈ l, ¬ d.1 < s) :
    chartPoints s l = some (l.map (fun d => (d.1 - s, d.2))) := by
  induction l with
  | nil => rfl
  | cons d rest ih =>
    have hd : ¬ d.1 < s := h d (List.mem_cons_self d rest)
    have hrest := ih (fun d' hd' => h d' (List.mem_cons_of_mem d hd'))
    simp only [chartPoints, elapsedQ, if_neg hd, hrest, List.map_cons]

theorem chartPoints_some_eq (s : ℚ) (l : List (ℚ × ℚ)) (f : List (ℚ × ℚ))
    (h : chartPoints s l = some f) :
    f = l.map (fun d => (d.1 - s, d.2)) := by
  have hnone : ¬ chartPoints s l = none := by rw [h]; simp
  rw [chartPoints_eq_none_iff] at hnone
  push_neg at hnone
  rw [chartPoints_eq_some s l (fun d hd => not_lt.mpr (hnone d hd))] at h
  exact (Option.some.injEq _ _).mp h.symm

theorem chain_first_le (d0 : ℚ × ℚ) (l : List (ℚ × ℚ))
    (h : List.Chain' (fun a b => a.1 ≤ b.1) (d0 :: l)) :
    ∀ x ∈ d0 :: l, d0.1 ≤ x.1 := by
  induction l generalizing d0 with
  | nil =>
    intro x hx
    rcases List.mem_cons.mp hx with rfl | hx
    · exact le_refl _
    · exact absurd hx (List.not_mem_nil x)
  | cons d1 rest ih =>
    intro x hx
    rw [List.chain'_cons] at h
    obtain ⟨h01, h1⟩ := h
    rcases List.mem_cons.mp hx with rfl | hx
    · exact le_refl _
    · exact le_trans h01 (ih d1 h1 x hx)

/-! ### Decoder claims -/

/-- C3: the sample decoder produces a sample exactly when the payload
length is 4, in which case the 4 bytes are read as a little-endian signed
32-bit integer (the encoding of 100000 decodes to 100000.0, modelled
exactly); a 3- or 5-byte payload produces no sample and no error — the
result type is `Option`, so nothing is surfaced. -/
theorem C3_decoder_contract :
    (∀ bytes : List Nat, (decode bytes).isSome ↔ bytes.length = 4) ∧
    decode [160, 134, 1, 0] = some 100000 ∧
    decode [160, 134, 1] = none ∧
    decode [160, 134, 1, 0, 0] = none ∧
    (∀ b0 b1 b2 b3 : Nat,
      decode [b0, b1, b2, b3] =
        some (toI32 (b0 + 256 * b1 + 256 ^ 2 * b2 + 256 ^ 3 * b3))) := by
  refine ⟨?_, by decide, rfl, rfl, fun b0 b1 b2 b3 => rfl⟩
  intro bytes
  match bytes with
  | [] => simp [decode]
  | [_] => simp [decode]
  | [_, _] => simp [decode]
  | [_, _, _] => simp [decode]
  | [_, _, _, _] => simp [decode]
  | _ :: _ :: _ :: _ :: _ :: _ => simp [decode]

/-- C3 witness: the decoder contract evaluated at the concrete 4-byte
little-endian encoding of 100000. -/
theorem C3_decoder_contract_witness :
    (decode [160, 134, 1, 0]).isSome ↔ ([160, 134, 1, 0] : List Nat).length = 4 :=
  C3_decoder_contract.1 [160, 134, 1, 0]

/-- C10: every decoded value is an integer in the signed 32-bit range
`[-2^31, 2^31 - 1]`. Every such integer is exactly representable as a
64-bit float (the `i32 as f64` conversion in main.rs line 80 is exact),
so no NaN or infinity can reach the sliding window buffer from the
decoder. -/
theorem C10_decode_range (bytes : List Nat) (hb : ∀ b ∈ bytes, b < 256)
    (v : Int) (hv : decode bytes = some v) :
    -2 ^ 31 ≤ v ∧ v ≤ 2 ^ 31 - 1 := by
  match bytes with
  | [b0, b1, b2, b3] =>
    have h0 : b0 < 256 := hb b0 (by simp)
    have h1 : b1 < 256 := hb b1 (by simp)
    have h2 : b2 < 256 := hb b2 (by simp)
    have h3 : b3 < 256 := hb b3 (by simp)
    simp only [decode, Option.some.injEq] at hv
    subst hv
    unfold toI32
    split
    · constructor <;> omega
    · have hub : b0 + 256 * b1 + 256 ^ 2 * b2 + 256 ^ 3 * b3 < 2 ^ 32 := by omega
      constructor <;> omega
  | [] => simp [decode] at hv
  | [_] => simp [decode] at hv
  | [_, _] => simp [decode] at hv
  | [_, _, _] => simp [decode] at hv
  | _ :: _ :: _ :: _ :: _ :: _ => simp [decode] at hv

/-- C10 witness: the range bound evaluated at the encoding of 100000. -/
theorem C10_decode_range_witness :
    -2 ^ 31 ≤ (100000 : Int) ∧ (100000 : Int) ≤ 2 ^ 31 - 1 :=
  C10_decode_range [160, 134, 1, 0] (by decide) 100000 (by decide)

/-! ### Buffer length claims -/

theorem push_length_le (st : BufState) (now p : ℚ)
    (h : st.data.length ≤ DATA_LENGTH + 1) :
    (push st now p).data.length ≤ DATA_LENGTH + 1 := by
  by_cases hc : st.data.length > DATA_LENGTH
  · rw [push_eq_evict st now p hc]
    simp only [List.length_append, List.length_tail, List.length_singleton]
    omega
  · rw [push_eq_append st now p hc]
    simp only [List.length_append, List.length_singleton]
    omega

theorem pushAll_length_le (l : List (ℚ × ℚ)) :
    ∀ st : BufState, st.data.length ≤ DATA_LENGTH + 1 →
      (pushAll st l).data.length ≤ DATA_LENGTH + 1 := by
  induction l with
  | nil => intro st h; exact h
  | cons tv rest ih =>
    intro st h
    rw [pushAll_cons]
    exact ih _ (push_length_le st tv.1 tv.2 h)

/-- Sample number `i + 1` of the end-to-end scenario: timestamp `i`,
constant value 5. -/
def sampleAt (i : Nat) : ℚ × ℚ := ((i : ℚ), 5)

/-- Contents of the scenario buffer: as long as at most
`DATA_LENGTH + 1` samples have been pushed, no eviction has happened,
the buffer holds all samples in order, and the epoch is the first
sample's timestamp 0. -/
theorem pushN_spec (n : Nat) (h : n ≤ DATA_LENGTH + 1) :
    pushN n = { data := (List.range n).map sampleAt, start_ts := 0 } := by
  induction n with
  | zero => rfl
  | succ n ih =>
    have hIH := ih (by omega)
    have hno : ¬ (pushN n).data.length > DATA_LENGTH := by
      rw [hIH]
      simp only [List.length_map, List.length_range]
      unfold DATA_LENGTH at h ⊢
      omega
    have hpush : pushN (n + 1) = push (pushN n) (n : ℚ) 5 := rfl
    rw [hpush, push_eq_append _ _ _ hno, hIH]
    simp only [BufState.mk.injEq, List.length_map, List.length_range]
    constructor
    · rw [List.range_succ, List.map_append]
      rfl
    · by_cases h0 : n = 0
      · subst h0; simp
      · rw [if_neg h0]

/-- C1 counterexample: pushing 1001 samples with strictly increasing
timestamps into an initially empty buffer leaves 1001 samples in the
buffer — the length after a push is not bounded by
`DATA_LENGTH = 1000`, because the code evicts before the append (based
on the pre-append length) rather than after it. -/
theorem C1_counterexample : ¬ (pushN 1001).data.length ≤ DATA_LENGTH := by
  rw [pushN_spec 1001 (by norm_num [DATA_LENGTH])]
  simp only [List.length_map, List.length_range]
  norm_num [DATA_LENGTH]

/-- C1 (amended): for every sequence of pushes into an initially empty
buffer, the buffer length is at most `DATA_LENGTH + 1 = 1001` after any
push completes (every intermediate state is `pushAll` of some prefix). -/
theorem C1_length_bound (t0 : ℚ) (l : List (ℚ × ℚ)) :
    (pushAll (initBuf t0) l).data.length ≤ DATA_LENGTH + 1 :=
  pushAll_length_le l (initBuf t0) (by simp [initBuf])

/-- C2 counterexample: after pushing 1001 samples with strictly
increasing timestamps `0, 1, 2, ...` and constant value 5 into an empty
buffer, the length is not 1000, and the oldest remaining sample is the
original first sample (timestamp 0), not the second one (timestamp 1):
no eviction has happened yet. -/
theorem C2_counterexample :
    (pushN 1001).data.length ≠ 1000 ∧
    (pushN 1001).data.head? = some ((0 : ℚ), (5 : ℚ)) := by
  rw [pushN_spec 1001 (by norm_num [DATA_LENGTH])]
  constructor
  · simp only [List.length_map, List.length_range]
    norm_num
  · rw [show (1001 : Nat) = 1000 + 1 from rfl, List.range_succ_eq_map,
      List.map_cons]
    simp [sampleAt]

/-- C2 (amended): pushing 1001 samples with strictly increasing
timestamps and constant value 5 into an initially empty buffer of
capacity 1000 yields a buffer of length exactly 1001 whose oldest
remaining sample is the original first sample (zero-based index 0), and
that sample's derived elapsed time is exactly 0. -/
theorem C2_scenario :
    (pushN 1001).data.length = 1001 ∧
    (pushN 1001).data.head? = some ((0 : ℚ), (5 : ℚ)) ∧
    ∃ frame, chartFrame (pushN 1001) = some frame ∧
      frame.head? = some ((0 : ℚ), (5 : ℚ)) := by
  have hP := pushN_spec 1001 (by norm_num [DATA_LENGTH])
  have hall : ∀ d ∈ (List.range 1001).map sampleAt, ¬ d.1 < (0 : ℚ) := by
    intro d hdm
    obtain ⟨i, _, hi⟩ := List.mem_map.mp hdm
    rw [← hi]
    exact not_lt.mpr (Nat.cast_nonneg i)
  have hframe : chartFrame (pushN 1001) =
      some (((List.range 1001).map sampleAt).map
        (fun d => (d.1 - (0 : ℚ), d.2))) := by
    rw [hP]
    simp only [chartFrame]
    rw [chartPoints_eq_some 0 ((List.range 1001).map sampleAt) hall]
  refine ⟨?_, ?_, ⟨_, hframe, ?_⟩⟩
  · rw [hP]
    simp only [List.length_map, List.length_range]
  · rw [hP, show (1001 : Nat) = 1000 + 1 from rfl, List.range_succ_eq_map,
      List.map_cons]
    simp [sampleAt]
  · rw [show (1001 : Nat) = 1000 + 1 from rfl, List.range_succ_eq_map,
      List.map_cons, List.map_cons]
    simp [sampleAt]

/-! ### Epoch and chart-frame claims -/

theorem push_epochInv (st : BufState) (now p : ℚ) (h : EpochInv st) :
    EpochInv (push st now p) := by
  by_cases hc : st.data.length > DATA_LENGTH
  · rw [push_eq_evict st now p hc]
    intro d hd
    cases ht : st.data.tail with
    | nil =>
      exfalso
      have hlen := congrArg List.length ht
      simp only [List.length_tail, List.length_nil] at hlen
      unfold DATA_LENGTH at hc
      omega
    | cons t0 trest =>
      rw [ht] at hd
      simp only [List.cons_append, List.head?_cons, Option.some.injEq] at hd
      subst hd
      rfl
  · rw [push_eq_append st now p hc]
    intro d hd
    cases hdt : st.data with
    | nil =>
      rw [hdt] at hd
      simp only [List.nil_append, List.head?_cons, Option.some.injEq] at hd
      subst hd
      simp
    | cons d0 rest =>
      rw [hdt] at hd
      simp only [List.cons_append, List.head?_cons, Option.some.injEq] at hd
      subst hd
      simp only [List.length_cons]
      rw [if_neg (by omega)]
      exact h d0 (by rw [hdt]; rfl)

theorem pushAll_epochInv (l : List (ℚ × ℚ)) :
    ∀ st : BufState, EpochInv st → EpochInv (pushAll st l) := by
  induction l with
  | nil => intro st h; exact h
  | cons tv rest ih =>
    intro st h
    rw [pushAll_cons]
    exact ih _ (push_epochInv st tv.1 tv.2 h)

/-- C4: after every push the epoch reference equals the oldest buffered
sample's timestamp — it is preserved by a single push (the pushed
sample's own timestamp when the buffer was empty, the new front's
timestamp after an eviction), it holds in every state reachable by
pushes from the initial empty buffer, and consequently the earliest
sample's derived elapsed time in the chart frame is exactly 0. -/
theorem C4_epoch_invariant :
    (∀ (st : BufState) (now p : ℚ), EpochInv st → EpochInv (push st now p)) ∧
    (∀ (t0 : ℚ) (l : List (ℚ × ℚ)), EpochInv (pushAll (initBuf t0) l)) ∧
    (∀ st : BufState, EpochInv st → ∀ frame p,
      chartFrame st = some frame → frame.head? = some p → p.1 = 0) := by
  refine ⟨push_epochInv, ?_, ?_⟩
  · intro t0 l
    refine pushAll_epochInv l (initBuf t0) ?_
    intro d hd
    simp [initBuf] at hd
  · intro st h frame p hf hp
    have hfe : frame = st.data.map (fun d => (d.1 - st.start_ts, d.2)) :=
      chartPoints_some_eq st.start_ts st.data frame hf
    subst hfe
    cases hdt : st.data with
    | nil => rw [hdt] at hp; simp at hp
    | cons d0 rest =>
      rw [hdt] at hp
      simp only [List.map_cons, List.head?_cons, Option.some.injEq] at hp
      rw [← hp]
      simp [h d0 (by rw [hdt]; rfl)]

/-- C4 witness: for the singleton buffer with sample timestamp 0 and
epoch 0, the chart frame's first point has elapsed time 0. -/
theorem C4_epoch_invariant_witness : (((0 : ℚ), (9 : ℚ))).1 = 0 :=
  C4_epoch_invariant.2.2 ⟨[((0 : ℚ), (9 : ℚ))], 0⟩ (by decide)
    [((0 : ℚ), (9 : ℚ))] ((0 : ℚ), (9 : ℚ))
    (by simp [chartFrame, chartPoints, elapsedQ]) rfl

/-- C5: the chart-frame computation fails (the `expect` panic on
`duration_since`) exactly when some buffered sample's timestamp predates
the epoch reference; under non-decreasing timestamps with the epoch
equal to the oldest sample's timestamp, the failure branch is
unreachable. -/
theorem C5_snapshot_failure (st : BufState) :
    (chartFrame st = none ↔ ∃ d ∈ st.data, d.1 < st.start_ts) ∧
    (List.Chain' (fun a b : ℚ × ℚ => a.1 ≤ b.1) st.data → EpochInv st →
      chartFrame st ≠ none) := by
  constructor
  · exact chartPoints_eq_none_iff st.start_ts st.data
  · intro hchain hepoch
    cases hdt : st.data with
    | nil =>
      unfold chartFrame
      rw [hdt]
      simp [chartPoints]
    | cons d0 rest =>
      have hall : ∀ d ∈ st.data, ¬ d.1 < st.start_ts := by
        intro d hd
        have hhead : st.start_ts = d0.1 := hepoch d0 (by rw [hdt]; rfl)
        have hle : d0.1 ≤ d.1 :=
          chain_first_le d0 rest (hdt ▸ hchain) d (hdt ▸ hd)
        rw [hhead]
        exact not_lt.mpr hle
      unfold chartFrame
      rw [chartPoints_eq_some st.start_ts st.data hall]
      simp

/-- C5 witness: a concrete sorted two-sample buffer whose epoch is the
oldest timestamp does not hit the failure branch. -/
theorem C5_snapshot_failure_witness :
    chartFrame ⟨[((0 : ℚ), (5 : ℚ)), ((1 : ℚ), (6 : ℚ))], 0⟩ ≠ none :=
  (C5_snapshot_failure ⟨[((0 : ℚ), (5 : ℚ)), ((1 : ℚ), (6 : ℚ))], 0⟩).2
    (by simp [List.chain'_cons]) (by decide)

/-- C6: if the buffered samples are in non-decreasing timestamp order,
the elapsed-seconds values of the chart frame are non-decreasing in
sample order: subtracting the epoch preserves monotonicity. -/
theorem C6_monotone (st : BufState) (frame : List (ℚ × ℚ))
    (hchain : List.Chain' (fun a b : ℚ × ℚ => a.1 ≤ b.1) st.data)
    (hf : chartFrame st = some frame) :
    List.Chain' (fun a b : ℚ × ℚ => a.1 ≤ b.1) frame := by
  have hfe : frame = st.data.map (fun d => (d.1 - st.start_ts, d.2)) :=
    chartPoints_some_eq st.start_ts st.data frame hf
  subst hfe
  rw [List.chain'_map]
  exact hchain.imp (fun _ _ hab => sub_le_sub_right hab st.start_ts)

/-- C6 witness: the monotonicity of a concrete two-point chart frame. -/
theorem C6_monotone_witness :
    List.Chain' (fun a b : ℚ × ℚ => a.1 ≤ b.1)
      [((0 : ℚ), (5 : ℚ)), ((0 : ℚ), (6 : ℚ))] :=
  C6_monotone ⟨[((0 : ℚ), (5 : ℚ)), ((0 : ℚ), (6 : ℚ))], 0⟩
    [((0 : ℚ), (5 : ℚ)), ((0 : ℚ), (6 : ℚ))] (by simp [List.chain'_cons])
    (by simp [chartFrame, chartPoints, elapsedQ])

/-! ### Render-loop claims -/

theorem step_nil (st : LoopState) (now : ℚ) (s : Bool) (h : st.queue = []) :
    step st now s = some st := by
  unfold step
  rw [h]

theorem step_cons (q : List ℚ) (b : BufState) (pix : List (ℚ × ℚ))
    (f : Option (List CsvRow)) (p now : ℚ) (s : Bool) :
    step ⟨p :: q, b, pix, f⟩ now s =
      match chartFrame (push b now p) with
      | none => none
      | some frame =>
        some ⟨q, push b now p, frame,
          if s then some (exportFile frame) else f⟩ := rfl

/-- C7: the exported file is exactly the `"Time(s)","Pressure(Pa)"`
header followed by one row per chart point in chart-frame order — the
3-point example frame yields the header plus exactly those 3 rows, an
empty frame yields a header-only file (not an error) — and the result
of an export trigger does not depend on what was previously in the
file (each trigger overwrites it). -/
theorem C7_export_contents :
    exportFile [] = [CsvRow.header] ∧
    exportFile [((0 : ℚ), (10 : ℚ)), (1, 20), (2, 30)] =
      [CsvRow.header, CsvRow.point 0 10, CsvRow.point 1 20,
        CsvRow.point 2 30] ∧
    (∀ frame : List (ℚ × ℚ),
      exportFile frame =
        CsvRow.header :: frame.map (fun d => CsvRow.point d.1 d.2) ∧
      (exportFile frame).length = 1 + frame.length) ∧
    (∀ (p : ℚ) (rest : List ℚ) (b : BufState) (pix : List (ℚ × ℚ))
        (f f' : Option (List CsvRow)) (now : ℚ),
      (step ⟨p :: rest, b, pix, f⟩ now true).map LoopState.file =
        (step ⟨p :: rest, b, pix, f'⟩ now true).map LoopState.file) := by
  refine ⟨rfl, rfl, fun frame => ⟨rfl, by simp [exportFile, Nat.add_comm]⟩, ?_⟩
  intro p rest b pix f f' now
  rw [step_cons rest b pix f p now true, step_cons rest b pix f' p now true]
  cases chartFrame (push b now p) <;> rfl

/-- C8: each loop iteration consumes at most one sample from the
ingestion channel — the resulting queue is either the old queue's tail
or the old queue itself — and when no sample is available the iteration
leaves the whole state (including the pixel buffer) unchanged, with the
fixed 15 ms frame delay before the next iteration. -/
theorem C8_poll_discipline :
    (∀ (st : LoopState) (now : ℚ) (s : Bool), st.queue = [] →
      step st now s = some st) ∧
    FRAME_DELAY_MS = 15 ∧
    (∀ (st st' : LoopState) (now : ℚ) (s : Bool), step st now s = some st' →
      st'.queue = st.queue.tail ∨ st' = st) := by
  refine ⟨step_nil, rfl, ?_⟩
  intro st st' now s hstep
  obtain ⟨qu, b, pix, f⟩ := st
  cases qu with
  | nil =>
    rw [step_nil _ now s rfl] at hstep
    right
    exact (Option.some.inj hstep).symm
  | cons p q =>
    rw [step_cons q b pix f p now s] at hstep
    cases hcf : chartFrame (push b now p) with
    | none =>
      rw [hcf] at hstep
      exact Option.noConfusion hstep
    | some frame =>
      rw [hcf] at hstep
      left
      rw [← Option.some.inj hstep]
      rfl

/-- C8 witness: an iteration on an empty channel returns the state
unchanged. -/
theorem C8_poll_discipline_witness :
    step ⟨[], initBuf 0, [], none⟩ 0 false = some ⟨[], initBuf 0, [], none⟩ :=
  C8_poll_discipline.1 ⟨[], initBuf 0, [], none⟩ 0 false rfl

/-- C9: the export key is polled only inside the sample-received branch
of the loop: on an empty channel the file state is unchanged (no export
occurs), and whenever an iteration that received a sample triggers the
export, the written file consists of the header plus at least one data
row — an export of an empty chart frame never occurs, because the
just-pushed sample is in the frame. -/
theorem C9_export_only_after_receive :
    (∀ (st : LoopState) (now : ℚ) (s : Bool), st.queue = [] →
      (step st now s).map LoopState.file = some st.file) ∧
    (∀ (st st' : LoopState) (now : ℚ), step st now true = some st' →
      st.queue ≠ [] →
      ∃ rows, st'.file = some (CsvRow.header :: rows) ∧ rows ≠ []) := by
  constructor
  · intro st now s h
    rw [step_nil st now s h]
    rfl
  · intro st st' now hstep hq
    obtain ⟨qu, b, pix, f⟩ := st
    cases qu with
    | nil => exact absurd rfl hq
    | cons p q =>
      rw [step_cons q b pix f p now true] at hstep
      cases hcf : chartFrame (push b now p) with
      | none =>
        rw [hcf] at hstep
        exact Option.noConfusion hstep
      | some frame =>
        rw [hcf] at hstep
        have hfr : frame =
            (push b now p).data.map
              (fun d => (d.1 - (push b now p).start_ts, d.2)) :=
          chartPoints_some_eq _ _ _ hcf
        have hfne : frame ≠ [] := by
          rw [hfr]
          intro hnil
          exact push_data_ne_nil b now p (List.map_eq_nil_iff.mp hnil)
        refine ⟨frame.map (fun d => CsvRow.point d.1 d.2), ?_, ?_⟩
        · rw [← Option.some.inj hstep]
          rfl
        · intro hnil
          exact hfne (List.map_eq_nil_iff.mp hnil)

/-- C9 witness: a concrete iteration that receives the sample 7 at time
0 with the export key pressed writes a file with the header and one
data row. -/
theorem C9_export_only_after_receive_witness :
    ∃ rows,
      (⟨[], ⟨[((0 : ℚ), (7 : ℚ))], 0⟩, [((0 : ℚ), (7 : ℚ))],
          some [CsvRow.header, CsvRow.point 0 7]⟩ : LoopState).file =
        some (CsvRow.header :: rows) ∧ rows ≠ [] :=
  C9_export_only_after_receive.2 ⟨[7], initBuf 0, [], none⟩
    ⟨[], ⟨[((0 : ℚ), (7 : ℚ))], 0⟩, [((0 : ℚ), (7 : ℚ))],
      some [CsvRow.header, CsvRow.point 0 7]⟩ 0
    (by simp [step, push, initBuf, DATA_LENGTH, chartFrame, chartPoints,
      elapsedQ, exportFile])
    (by simp)

end PressureMonitor
